import Mathlib

/-!
Verification of the traffic-replay recording pipeline.

This file gives a shallow embedding of the core of the `traffic-replay`
tool: the binary packet decoder (`pkg/reader/packet.go`), the byte-level
wire inspector and classifier (`pkg/reader/context.go` and its
context-aware revision), the recording filter (`cmd/filter/main.go`),
the raw-mode wire-message validation (`pkg/sender/raw_sender.go`), the
command-mode result check (`pkg/sender/result.go`), the internal-field
stripping (`pkg/sender/command.go`), the replay scheduler
(`cmd/replay/main.go`) and the script generator's `find` translation.

Byte streams are modelled as `List Nat` (one entry per byte; inputs that
are genuine byte streams satisfy `b < 256` for every entry, which appears
as a hypothesis where encode/decode arithmetic needs it).  Go strings
extracted from messages are byte lists as well; `strBytes` maps a Lean
string literal to its byte list.  Go machine integers are `Nat`/`Int`
with explicit `% 2 ^ w` where overflow matters.
-/

namespace TrafficReplay

/-- Byte list of an ASCII string literal. -/
def strBytes (s : String) : List Nat := s.data.map Char.toNat

/-- Byte at index `i`, with the Go bounds-checked accesses mirrored by the
callers' explicit length guards (out-of-range reads never occur on the
guarded paths; `0` is returned as an arbitrary value otherwise). -/
def byteAt (l : List Nat) (i : Nat) : Nat := l.getD i 0

/-- Contiguous slice `l[a..b)`, mirroring a Go slice expression `l[a:b]`. -/
def sliceBytes (l : List Nat) (a b : Nat) : List Nat := (l.drop a).take (b - a)

/-- Little-endian 32-bit read at offset `i`, mirroring
`binary.LittleEndian.Uint32(msg[i:i+4])`. -/
def le32At (l : List Nat) (i : Nat) : Nat :=
  byteAt l i + 256 * byteAt l (i + 1) + 65536 * byteAt l (i + 2) +
    16777216 * byteAt l (i + 3)

/-- Length of the run of non-null bytes at the front of a list. -/
def countNonzeroRun : List Nat → Nat
  | [] => 0
  | b :: rest => if b = 0 then 0 else countNonzeroRun rest + 1

/-- First index `j ≥ i` with `l[j] = 0`, or `l.length` when there is none;
mirrors the null-terminator scans
`for offset < len(msg) && msg[offset] != 0 { offset++ }` of
`ExtractCommandName` and `ExtractCollection`. -/
def findZeroFrom (l : List Nat) (i : Nat) : Nat :=
  i + countNonzeroRun (l.drop i)

/-- Bytes `pat` are an initial segment of `l`; mirrors `strings.HasPrefix`. -/
def startsWithBytes : List Nat → List Nat → Bool
  | [], _ => true
  | _ :: _, [] => false
  | p :: ps, x :: xs => p = x && startsWithBytes ps xs

/-- Index of the first suffix position at which `pat` begins, scanning
front to back. -/
def indexOfSubInList (pat : List Nat) : List Nat → Option Nat
  | [] => if pat = [] then some 0 else none
  | x :: xs =>
    if startsWithBytes pat (x :: xs) then some 0
    else (indexOfSubInList pat xs).map (· + 1)

/-- First index at which `pat` occurs as a contiguous sublist of `l`;
mirrors Go's `strings.Index`. -/
def indexOfSub (l pat : List Nat) : Option Nat := indexOfSubInList pat l

/-! ## Wire inspector (`pkg/reader/packet.go`, `context.go`, command extraction) -/

/-- Packet.GetOpCode: opcode at bytes 12..15, `0` when the message is
shorter than a wire header. -/
def GetOpCode (msg : List Nat) : Nat :=
  if msg.length < 16 then 0 else le32At msg 12

/-- Packet.IsRequest: `responseTo` at bytes 8..11 equals zero. -/
def IsRequest (msg : List Nat) : Bool :=
  if msg.length < 16 then false else le32At msg 8 == 0

/-- Packet.ExtractCommandName: first BSON field name of an OP_MSG body
section, empty on any range failure. -/
def ExtractCommandName (msg : List Nat) : List Nat :=
  if msg.length < 21 then [] else
  if GetOpCode msg ≠ 2013 then [] else
  if byteAt msg 20 ≠ 0 then [] else
  if 21 + 4 > msg.length then [] else
  if 25 ≥ msg.length then [] else
  let j := findZeroFrom msg 26
  if j ≥ msg.length then [] else
  sliceBytes msg 26 j

/-- Packet.ExtractDatabase: searches the message for the byte sequence
`$db`, then reads a BSON string (4-byte length followed by the
null-terminated value).  The Go slice `msg[idx : idx+strLen-1]` is a
runtime panic when `strLen = 0`; `Nat` subtraction totalizes that case to
an empty result. -/
def ExtractDatabase (msg : List Nat) : List Nat :=
  if msg.length < 21 then [] else
  if GetOpCode msg ≠ 2013 then [] else
  match indexOfSub msg (strBytes "$db") with
  | none => []
  | some i0 =>
    let idx := i0 + 4
    if idx + 4 ≥ msg.length then [] else
    let strLen := le32At msg idx
    let idx2 := idx + 4
    if idx2 + strLen > msg.length then [] else
    sliceBytes msg idx2 (idx2 + strLen - 1)

/-- Packet.ExtractCollection: skips the command-name field and reads its
value as a BSON string when the element type byte was `0x02`.  The Go
index expression `offset-1-len(cmd)-1` and the slice upper bound
`offset+strLen-1` use `Nat` subtraction here, totalizing the (unreachable
on guarded paths) negative cases. -/
def ExtractCollection (msg : List Nat) : List Nat :=
  let cmd := ExtractCommandName msg
  if cmd = [] then [] else
  if msg.length < 30 then [] else
  if GetOpCode msg ≠ 2013 then [] else
  let j := findZeroFrom msg 26
  let off := j + 1
  if off ≥ msg.length then [] else
  if 0 < off ∧ byteAt msg (off - 1 - cmd.length - 1) = 2 then
    if off + 4 > msg.length then [] else
    let strLen := le32At msg off
    let off2 := off + 4
    if off2 + strLen > msg.length then [] else
    sliceBytes msg off2 (off2 + strLen - 1)
  else []

/-! ## Classifier -/

/-- Databases used for internal MongoDB operations (`IsInternalDatabase`). -/
def IsInternalDatabase (db : List Nat) : Bool :=
  [strBytes "local", strBytes "admin", strBytes "config"].contains db

/-- Collections used for internal MongoDB operations
(`IsInternalCollection`). -/
def IsInternalCollection (coll : List Nat) : Bool :=
  if startsWithBytes (strBytes "system.") coll then true
  else
    [strBytes "oplog.rs", strBytes "startup_log", strBytes "replset.election",
      strBytes "replset.minvalid",
      strBytes "replset.oplogTruncateAfterPoint"].contains coll

/-- User-data command names of the simple `IsUserOperation` check. -/
def userDataOps : List (List Nat) :=
  [strBytes "insert", strBytes "update", strBytes "delete", strBytes "find",
    strBytes "findAndModify", strBytes "aggregate", strBytes "count",
    strBytes "distinct"]

/-- DDL command names of the simple `IsUserOperation` check. -/
def ddlOps : List (List Nat) :=
  [strBytes "create", strBytes "drop", strBytes "createIndexes",
    strBytes "dropIndexes", strBytes "listIndexes", strBytes "collMod",
    strBytes "renameCollection"]

/-- Admin command names of the simple `IsUserOperation` check. -/
def adminOps : List (List Nat) :=
  [strBytes "explain", strBytes "validate", strBytes "compact",
    strBytes "reIndex"]

/-- Packet.IsUserOperation: simple command-name membership check. -/
def IsUserOperation (msg : List Nat) : Bool :=
  let cmd := ExtractCommandName msg
  userDataOps.contains cmd || ddlOps.contains cmd || adminOps.contains cmd

/-- Replication command names of `IsInternalOperation`. -/
def replicationOps : List (List Nat) :=
  [strBytes "replSetHeartbeat", strBytes "replSetGetStatus",
    strBytes "replSetGetConfig", strBytes "replSetUpdatePosition",
    strBytes "getMore"]

/-- Monitoring command names of `IsInternalOperation`. -/
def monitoringOps : List (List Nat) :=
  [strBytes "hello", strBytes "isMaster", strBytes "ping",
    strBytes "buildInfo", strBytes "serverStatus", strBytes "replSetGetStatus"]

/-- Internal-coordination command names of `IsInternalOperation`. -/
def internalCoordinationOps : List (List Nat) :=
  [strBytes "_configsvrCommitChunkMigration",
    strBytes "_configsvrCommitChunkSplit",
    strBytes "_shardsvrCloneCatalogData",
    strBytes "_flushRoutingTableCacheUpdates"]

/-- Packet.IsInternalOperation: internal cluster chatter by command name. -/
def IsInternalOperation (msg : List Nat) : Bool :=
  let cmd := ExtractCommandName msg
  replicationOps.contains cmd || monitoringOps.contains cmd ||
    internalCoordinationOps.contains cmd

/-- Likely-user command names of the context-aware classifier. -/
def likelyUserOps : List (List Nat) :=
  [strBytes "insert", strBytes "update", strBytes "delete",
    strBytes "findAndModify", strBytes "create", strBytes "drop",
    strBytes "createIndexes", strBytes "dropIndexes"]

/-- Definitely-internal command names of the context-aware classifier. -/
def definiteInternalOps : List (List Nat) :=
  [strBytes "hello", strBytes "isMaster", strBytes "ping",
    strBytes "buildInfo", strBytes "replSetHeartbeat",
    strBytes "replSetGetStatus", strBytes "replSetUpdatePosition"]

/-- Ambiguous command names of the context-aware classifier. -/
def ambiguousOps : List (List Nat) :=
  [strBytes "find", strBytes "aggregate", strBytes "count",
    strBytes "distinct", strBytes "getMore", strBytes "listIndexes",
    strBytes "listCollections", strBytes "listDatabases"]

/-- Decision core of the context-aware `IsLikelyUserOperation`, applied to
the already extracted command name, database and collection, exactly in
the source's branch order. -/
def isLikelyUserOperationFrom (cmd db coll : List Nat) : Bool :=
  if likelyUserOps.contains cmd then
    if IsInternalDatabase db && IsInternalCollection coll then false
    else if IsInternalDatabase db then false
    else true
  else if definiteInternalOps.contains cmd then false
  else if ambiguousOps.contains cmd then
    if cmd = strBytes "getMore" && db = strBytes "local" &&
        coll = strBytes "oplog.rs" then false
    else if IsInternalDatabase db then
      if IsInternalCollection coll then false
      else false
    else true
  else false

/-- Packet.IsLikelyUserOperation (context-aware revision): extracts the
command name, database and collection and applies the decision core. -/
def IsLikelyUserOperation (msg : List Nat) : Bool :=
  let cmd := ExtractCommandName msg
  if cmd = [] then false
  else isLikelyUserOperationFrom cmd (ExtractDatabase msg) (ExtractCollection msg)

/-- Definitely-user command names of the simple revision of
`IsLikelyUserOperation` in `pkg/reader/context.go`. -/
def definiteUserOpsSimple : List (List Nat) :=
  [strBytes "insert", strBytes "update", strBytes "delete", strBytes "find",
    strBytes "findAndModify", strBytes "aggregate", strBytes "count",
    strBytes "distinct", strBytes "create", strBytes "drop",
    strBytes "createIndexes", strBytes "dropIndexes"]

/-- Packet.IsLikelyUserOperation as found in `pkg/reader/context.go` (the
earlier revision, which answers `true` for the definitely-user set without
consulting database or collection). -/
def IsLikelyUserOperationSimple (msg : List Nat) : Bool :=
  let cmd := ExtractCommandName msg
  if cmd = [] then false else
  if definiteUserOpsSimple.contains cmd then true else
  if definiteInternalOps.contains cmd then false else
  if cmd = strBytes "getMore" then
    let db := ExtractDatabase msg
    let coll := ExtractCollection msg
    if db = strBytes "local" && coll = strBytes "oplog.rs" then false
    else if IsInternalDatabase db then false
    else true
  else if cmd = strBytes "listIndexes" || cmd = strBytes "listCollections" ||
      cmd = strBytes "listDatabases" then
    if IsInternalDatabase (ExtractDatabase msg) then false else true
  else false

/-! ## Packet decoder (`pkg/reader/packet.go` ReadPacket) -/

/-- Decoder failure kinds, mirroring the distinct error returns of
`ReadPacket`: size below minimum, EOF or short read inside a frame,
session metadata above the safety cap, and a negative computed message
size. -/
inductive DecodeErr where
  | badSize
  | truncated
  | metadataOverflow
  | badMessageSize
deriving DecidableEq, Repr

/-- Read a little-endian 32-bit integer, consuming four bytes. -/
def readLE32 : List Nat → Option (Nat × List Nat)
  | b0 :: b1 :: b2 :: b3 :: rest =>
    some (b0 + 256 * b1 + 65536 * b2 + 16777216 * b3, rest)
  | _ => none

/-- Read a little-endian 64-bit integer, consuming eight bytes. -/
def readLE64 : List Nat → Option (Nat × List Nat)
  | b0 :: b1 :: b2 :: b3 :: b4 :: b5 :: b6 :: b7 :: rest =>
    some (b0 + 256 * b1 + 65536 * b2 + 16777216 * b3 + 4294967296 * b4 +
      1099511627776 * b5 + 281474976710656 * b6 + 72057594037927936 * b7, rest)
  | _ => none

/-- Little-endian 32-bit encoding (value taken modulo `2 ^ 32`, as the Go
`uint32` conversion does). -/
def le32enc (n : Nat) : List Nat :=
  [n % 256, n / 256 % 256, n / 65536 % 256, n / 16777216 % 256]

/-- Little-endian 64-bit encoding (value taken modulo `2 ^ 64`). -/
def le64enc (n : Nat) : List Nat :=
  [n % 256, n / 256 % 256, n / 65536 % 256, n / 16777216 % 256,
    n / 4294967296 % 256, n / 1099511627776 % 256, n / 281474976710656 % 256,
    n / 72057594037927936 % 256]

/-- Session-metadata scan of `ReadPacket`: bytes up to a null terminator,
failing with `metadataOverflow` once more than 10000 bytes accumulate
(the Go loop appends a byte and then checks `len(sessionBytes) > 10000`),
and with `truncated` when the input ends before the terminator. -/
def readCStringAux (acc : Nat) : List Nat → Except DecodeErr (List Nat × List Nat)
  | [] => .error .truncated
  | b :: rest =>
    if b = 0 then .ok ([], rest)
    else if acc + 1 > 10000 then .error .metadataOverflow
    else
      match readCStringAux (acc + 1) rest with
      | .ok (m, r) => .ok (b :: m, r)
      | .error e => .error e

/-- Read exactly `n` bytes, failing like `io.ReadFull` on a short input. -/
def readExact (n : Nat) (l : List Nat) : Except DecodeErr (List Nat × List Nat) :=
  if l.length < n then .error .truncated else .ok (l.take n, l.drop n)

/-- A decoded recording packet.  The inferred `EventType` tag of the Go
struct is omitted: `ReadPacket` labels every packet `Regular` and no
embedded operation reads it. -/
structure Packet where
  size : Nat
  sessionID : Nat
  sessionMetadata : List Nat
  offset : Nat
  order : Nat
  message : List Nat
deriving DecidableEq, Repr

/-- ReadPacket: parse one frame from the front of a byte stream, returning
the packet and the remaining bytes.  Field order, the `size ≥ 29` check,
the metadata cap and the non-negative message size check mirror the
source exactly. -/
def ReadPacket (input : List Nat) : Except DecodeErr (Packet × List Nat) :=
  match readLE32 input with
  | none => .error .truncated
  | some (size, r1) =>
    if size < 29 then .error .badSize else
    match readLE64 r1 with
    | none => .error .truncated
    | some (sid, r2) =>
      match readCStringAux 0 r2 with
      | .error e => .error e
      | .ok (meta, r3) =>
        match readLE64 r3 with
        | none => .error .truncated
        | some (off, r4) =>
          match readLE64 r4 with
          | none => .error .truncated
          | some (ord, r5) =>
            -- headerSize = 4 + 8 + len(session) + 1 + 8 + 8
            if (size : Int) - ((4 + 8 + meta.length + 1 + 8 + 8 : Nat) : Int) < 0
            then .error .badMessageSize
            else
              match readExact
                  ((size : Int) -
                    ((4 + 8 + meta.length + 1 + 8 + 8 : Nat) : Int)).toNat r5 with
              | .error e => .error e
              | .ok (msg, r6) =>
                .ok ({ size := size, sessionID := sid, sessionMetadata := meta,
                       offset := off, order := ord, message := msg }, r6)

/-! ## Filter (`cmd/filter/main.go`) -/

/-- writePacket: re-encode a packet in the recording frame format, with
`size` recomputed from the header fields and message length (truncated to
`uint32` by `le32enc`). -/
def writePacket (p : Packet) : List Nat :=
  le32enc (4 + 8 + p.sessionMetadata.length + 1 + 8 + 8 + p.message.length) ++
    le64enc p.sessionID ++ p.sessionMetadata ++ [0] ++ le64enc p.offset ++
    le64enc p.order ++ p.message

/-- Filter configuration flags, with the zero values of the Go struct as
defaults. -/
structure FilterConfig where
  requestsOnly : Bool := false
  userOpsOnly : Bool := false
  userOpsOnlySmart : Bool := false
  excludeInternal : Bool := false
  includeCommands : List (List Nat) := []
  excludeCommands : List (List Nat) := []
  minOffset : Nat := 0
  maxOffset : Nat := 0
deriving Repr

/-- shouldKeepPacket: the filter predicate with its drop reason, as the
sequential early-return chain of the source. -/
def shouldKeepPacket (p : Packet) (config : FilterConfig) : Bool × String :=
  if config.minOffset > 0 && p.offset < config.minOffset then (false, "time-range")
  else if config.maxOffset > 0 && p.offset > config.maxOffset then (false, "time-range")
  else if config.requestsOnly && !(p.message.length == 0) &&
      !(IsRequest p.message) then (false, "response")
  else if config.userOpsOnly && p.message.length == 0 then (false, "empty-message")
  else if config.userOpsOnly && !(IsUserOperation p.message) then
    (false, "internal-operation")
  else if config.userOpsOnlySmart && p.message.length == 0 then
    (false, "empty-message")
  else if config.userOpsOnlySmart && !(IsLikelyUserOperation p.message) then
    (false, "internal-operation")
  else if config.excludeInternal && IsInternalOperation p.message then
    (false, "internal-operation")
  else
    let cmd := ExtractCommandName p.message
    if !config.includeCommands.isEmpty &&
        !(config.includeCommands.contains cmd) then (false, "command-filter")
    else if !config.excludeCommands.isEmpty &&
        config.excludeCommands.contains cmd then (false, "command-filter")
    else (true, "")

/-- The accept-all filter configuration: every flag off, no command lists,
no time bounds. -/
def acceptAllConfig : FilterConfig := {}

/-- One filter run over a byte stream: decode packets until the input is
exhausted (clean EOF), re-encoding each packet the predicate keeps.  Any
mid-frame decode failure aborts the run (`none`), as `filterRecording`
aborts on a packet read error.  `fuel` bounds the recursion; each parsed
frame consumes at least 29 bytes, so `input.length` fuel suffices. -/
def filterStreamFuel (config : FilterConfig) : Nat → List Nat → Option (List Nat)
  | _, [] => some []
  | 0, _ :: _ => none
  | fuel + 1, b :: rest0 =>
    match ReadPacket (b :: rest0) with
    | .error _ => none
    | .ok (p, rest) =>
      match filterStreamFuel config fuel rest with
      | none => none
      | some out =>
        some (if (shouldKeepPacket p config).1 then writePacket p ++ out else out)

/-- filterRecording's stream transformation: decode, filter, re-encode. -/
def filterStream (config : FilterConfig) (input : List Nat) : Option (List Nat) :=
  filterStreamFuel config input.length input

/-! ## Raw sender validation (`pkg/sender/raw_sender.go`) -/

/-- Wire-protocol opcode constants of the driver's `wiremessage` package
(and spec §3). -/
def OpReply : Int := 1

/-- OP_UPDATE legacy opcode. -/
def OpUpdate : Int := 2001

/-- OP_INSERT legacy opcode. -/
def OpInsert : Int := 2002

/-- OP_QUERY legacy opcode. -/
def OpQuery : Int := 2004

/-- OP_GET_MORE legacy opcode. -/
def OpGetMore : Int := 2005

/-- OP_DELETE legacy opcode. -/
def OpDelete : Int := 2006

/-- OP_KILL_CURSORS legacy opcode. -/
def OpKillCursors : Int := 2007

/-- OP_COMPRESSED opcode. -/
def OpCompressed : Int := 2012

/-- OP_MSG opcode. -/
def OpMsg : Int := 2013

/-- Two's-complement reading of a 32-bit little-endian value as a signed
integer. -/
def toInt32 (n : Nat) : Int :=
  if n % 4294967296 < 2147483648 then ((n % 4294967296 : Nat) : Int)
  else ((n % 4294967296 : Nat) : Int) - 4294967296

/-- Modelled from the spec: `wiremessage.ReadHeader` of the driver library
(an external collaborator, §6.4), which per §3 reads the 16-byte wire
header as four little-endian signed 32-bit integers
(length, requestID, responseTo, opcode), failing when fewer than 16 bytes
are available. -/
def ReadHeader (msg : List Nat) : Option (Int × Int × Int × Int) :=
  if msg.length < 16 then none
  else some (toInt32 (le32At msg 0), toInt32 (le32At msg 4),
    toInt32 (le32At msg 8), toInt32 (le32At msg 12))

/-- isLegacyOpCode: the switch over the six removed legacy opcodes. -/
def isLegacyOpCode (opcode : Int) : Bool :=
  opcode = OpQuery || opcode = OpInsert || opcode = OpUpdate ||
    opcode = OpDelete || opcode = OpGetMore || opcode = OpKillCursors

/-- Parsed wire-message header, as returned by `validateWireMessage`. -/
structure WireMessageHeader where
  length : Int
  requestID : Int
  responseTo : Int
  opCode : Int
deriving DecidableEq, Repr

/-- Failure kinds of `validateWireMessage`, one per distinct error return. -/
inductive WireValidationError where
  | invalidHeader
  | legacyOpCode (opcode : Int)
  | lengthMismatch (headerLength : Int) (actual : Nat)
deriving DecidableEq, Repr

/-- validateWireMessage: parse the header, reject legacy opcodes, then
check the declared length against the buffer length — in that order, so a
legacy opcode is reported before any length mismatch. -/
def validateWireMessage (msg : List Nat) : Except WireValidationError WireMessageHeader :=
  match ReadHeader msg with
  | none => .error .invalidHeader
  | some (length, requestID, responseTo, opcode) =>
    if isLegacyOpCode opcode then .error (.legacyOpCode opcode)
    else if length ≠ (msg.length : Int) then
      .error (.lengthMismatch length msg.length)
    else .ok { length := length, requestID := requestID,
               responseTo := responseTo, opCode := opcode }

/-! ## BSON documents and internal-field stripping (`pkg/sender/command.go`) -/

/-- Structured view of a decoded BSON value as produced by
`bson.Unmarshal` into `bson.M`: nested documents (`bson.M`, modelled as
association lists since Go map iteration is order-oblivious here), arrays
(`bson.A`), and the primitives the embedded operations inspect — strings,
null, the `int`/`int32`/`int64` and `float64` numerics (the float payload
as an exact rational, faithful for the `== 1` comparisons performed),
booleans, and a tag for every other primitive, which all the embedded
code copies opaquely. -/
inductive BsonValue where
  | doc (fields : List (String × BsonValue))
  | arr (elems : List BsonValue)
  | str (s : String)
  | vnull
  | vint (n : Int)
  | vint32 (n : Int)
  | vint64 (n : Int)
  | vdouble (q : ℚ)
  | vbool (b : Bool)
  | prim (tag : Nat)

/-- Keys stripped by `cleanInternalFields` at every depth. -/
def internalFields : List String :=
  ["$clusterTime", "$db", "$readPreference", "lsid", "txnNumber",
    "autocommit", "startTransaction", "readConcern", "writeConcern"]

mutual

/-- cleanInternalFields: drop internal keys from a document and
recursively clean the remaining values. -/
def cleanInternalFields : List (String × BsonValue) → List (String × BsonValue)
  | [] => []
  | (key, value) :: rest =>
    if internalFields.contains key then cleanInternalFields rest
    else (key, cleanValue value) :: cleanInternalFields rest

/-- Per-value switch of `cleanInternalFields`: recurse into `bson.M` and
`bson.A`, copy every other value as-is. -/
def cleanValue : BsonValue → BsonValue
  | .doc m => .doc (cleanInternalFields m)
  | .arr a => .arr (cleanInternalFieldsArray a)
  | .str s => .str s
  | .vnull => .vnull
  | .vint n => .vint n
  | .vint32 n => .vint32 n
  | .vint64 n => .vint64 n
  | .vdouble q => .vdouble q
  | .vbool b => .vbool b
  | .prim t => .prim t

/-- cleanInternalFieldsArray: clean every element of a `bson.A`. -/
def cleanInternalFieldsArray : List BsonValue → List BsonValue
  | [] => []
  | item :: rest => cleanValue item :: cleanInternalFieldsArray rest

end

mutual

/-- A value contains a key from the stripped set at some depth. -/
def mentionsInternalKey : BsonValue → Bool
  | .doc m => mentionsInternalKeyFields m
  | .arr a => mentionsInternalKeyArray a
  | _ => false

/-- A field list contains a stripped key at some depth. -/
def mentionsInternalKeyFields : List (String × BsonValue) → Bool
  | [] => false
  | (key, value) :: rest =>
    internalFields.contains key || mentionsInternalKey value ||
      mentionsInternalKeyFields rest

/-- An array contains a stripped key at some depth. -/
def mentionsInternalKeyArray : List BsonValue → Bool
  | [] => false
  | item :: rest => mentionsInternalKey item || mentionsInternalKeyArray rest

end

/-! ## Command result (`pkg/sender/result.go`) -/

/-- Result of sending a command: driver success flag and the decoded
response document (`nil` modelled as `none`). -/
structure CommandResult where
  success : Bool
  response : Option (List (String × BsonValue))

/-- Result.IsOK: false without driver success or a response document;
otherwise the `ok` field decides — numeric values compare against 1, any
other type, or an absent field, falls through to `true`. -/
def IsOK (r : CommandResult) : Bool :=
  if !r.success then false
  else
    match r.response with
    | none => false
    | some doc =>
      match doc.lookup "ok" with
      | some v =>
        match v with
        | .vint n => n == 1
        | .vint32 n => n == 1
        | .vint64 n => n == 1
        | .vdouble q => q == 1
        | _ => true
      | none => true

/-! ## Script generator (`cmd/packets/main.go` generateFind) -/

/-- The filter argument of a recorded `find`: the `filter` entry of the
command document, with both an absent entry and an explicit BSON null
(Go `nil`) replaced by the empty document. -/
def findFilterOf (doc : List (String × BsonValue)) : BsonValue :=
  match doc.lookup "filter" with
  | none => .doc []
  | some .vnull => .doc []
  | some v => v

/-- generateFind: translate a recorded `find` command document into a
shell statement.  `render` stands for the JSON rendering
(`json.MarshalIndent`) of a BSON value and `renderV` for the `%v`
formatting of the `limit` value — both external library behaviour, passed
in as parameters.  The branch structure (early return on `projection`,
then `sort`, then `limit`) mirrors the source. -/
def generateFind (render renderV : BsonValue → String)
    (doc : List (String × BsonValue)) (database : String) :
    Except String String :=
  match doc.lookup "find" with
  | some (.str coll) =>
    let filterJSON := render (findFilterOf doc)
    let base := "db.getSiblingDB(\"" ++ database ++ "\")." ++ coll
    let limitBranch : Except String String :=
      match doc.lookup "limit" with
      | some v =>
        .ok (base ++ ".find(\n  " ++ filterJSON ++ "\n).limit(" ++
          renderV v ++ ");")
      | none => .ok (base ++ ".find(" ++ filterJSON ++ ");")
    let sortBranch : Except String String :=
      match doc.lookup "sort" with
      | some (.doc d) =>
        if d.length > 0 then
          .ok (base ++ ".find(\n  " ++ filterJSON ++ "\n).sort(" ++
            render (.doc d) ++ ");")
        else limitBranch
      | _ => limitBranch
    match doc.lookup "projection" with
    | some (.doc d) =>
      if d.length > 0 then
        .ok (base ++ ".find(\n  " ++ filterJSON ++ "\n).project(" ++
          render (.doc d) ++ ");")
      else sortBranch
    | _ => sortBranch
  | _ => .error "missing collection name"

/-! ## Replay scheduler timing (`cmd/replay/main.go`) -/

/-- Loop body of the replay timing for packets after the first, for
`speed > 0`: each iteration computes `delay = (offset − lastOffset) /
speed`, sleeps when the delay is positive, then performs the send.  The
state `t` is the elapsed wall-clock time (taking `T_start = 0`) and
`last` the previous sent packet's offset; each list entry pairs a
packet's `offset_us` with the duration `w` its send occupies the loop.
Exact rational arithmetic abstracts the float64 division and
`time.Duration` truncation of the source. -/
def replayTimesAux (speed : ℚ) (t last : ℚ) : List (ℚ × ℚ) → List ℚ
  | [] => []
  | (o, w) :: rest =>
    let delay := (o - last) / speed
    let slept := if delay > 0 then delay else 0
    (t + slept) :: replayTimesAux speed (t + slept + w) o rest

/-- Wall-clock send times of the replay loop with `speed > 0`: the first
packet is sent immediately (`firstOp` records its offset without
sleeping); every later packet sleeps the incremental delta from the
previous packet's offset. -/
def replaySendTimes (speed : ℚ) : List (ℚ × ℚ) → List ℚ
  | [] => []
  | (o, w) :: rest => 0 :: replayTimesAux speed w o rest

/-! ## Concrete packets used as witnesses and counterexamples -/

/-- An OP_MSG request whose body is the BSON document
`insert: "oplog.rs", $db: "app"` — an insert into a collection named
like the replication oplog, on a user database. -/
def insertOplogMsg : List Nat :=
  [60, 0, 0, 0, 1, 0, 0, 0, 0, 0, 0, 0, 221, 7, 0, 0] ++ [0, 0, 0, 0] ++ [0] ++
    ([39, 0, 0, 0, 2] ++ strBytes "insert" ++ [0] ++ [9, 0, 0, 0] ++
      strBytes "oplog.rs" ++ [0] ++ [2] ++ strBytes "$db" ++ [0] ++
      [4, 0, 0, 0] ++ strBytes "app" ++ [0] ++ [0])

/-- An OP_MSG request whose body is the BSON document
`getMore: "oplog.rs", $db: "local"` (the value given as a string so that
the collection heuristic extracts it) — oplog tailing. -/
def oplogGetMoreMsg : List Nat :=
  [63, 0, 0, 0, 1, 0, 0, 0, 0, 0, 0, 0, 221, 7, 0, 0] ++ [0, 0, 0, 0] ++ [0] ++
    ([42, 0, 0, 0, 2] ++ strBytes "getMore" ++ [0] ++ [9, 0, 0, 0] ++
      strBytes "oplog.rs" ++ [0] ++ [2] ++ strBytes "$db" ++ [0] ++
      [6, 0, 0, 0] ++ strBytes "local" ++ [0] ++ [0])

/-- The size-accounting packet of spec §8 scenario 3: metadata `abc`,
a 32-byte message, total frame size 64. -/
def scenarioPacket : Packet :=
  { size := 64, sessionID := 7, sessionMetadata := strBytes "abc",
    offset := 1000, order := 1, message := List.range 32 }

/-! ## C7: smart-filter oplog rule -/

/-- C7: whenever the extracted command name is `getMore`, the extracted
database is `local` and the extracted collection is `oplog.rs`, the
context-aware `IsLikelyUserOperation` answers `false` — and so does the
earlier simple revision in `pkg/reader/context.go`. -/
theorem smart_filter_oplog_rule (msg : List Nat)
    (hc : ExtractCommandName msg = strBytes "getMore")
    (hd : ExtractDatabase msg = strBytes "local")
    (hl : ExtractCollection msg = strBytes "oplog.rs") :
    IsLikelyUserOperation msg = false ∧
      IsLikelyUserOperationSimple msg = false := by
  constructor
  · simp only [IsLikelyUserOperation, hc, hd, hl]
    decide
  · simp only [IsLikelyUserOperationSimple, hc, hd, hl]
    decide

/-- C7 witness: the concrete oplog `getMore` packet satisfies the three
extraction hypotheses and is classified as not a user operation. -/
theorem smart_filter_oplog_rule_witness :
    ExtractCommandName oplogGetMoreMsg = strBytes "getMore" ∧
      ExtractDatabase oplogGetMoreMsg = strBytes "local" ∧
      ExtractCollection oplogGetMoreMsg = strBytes "oplog.rs" ∧
      IsLikelyUserOperation oplogGetMoreMsg = false ∧
      IsLikelyUserOperationSimple oplogGetMoreMsg = false :=
  ⟨by decide, by decide, by decide,
    (smart_filter_oplog_rule oplogGetMoreMsg (by decide) (by decide)
      (by decide)).1,
    (smart_filter_oplog_rule oplogGetMoreMsg (by decide) (by decide)
      (by decide)).2⟩

/-! ## C2: likely-user commands and internal databases / collections -/

/-- C2 counterexample: an `insert` targeting the internal collection
`oplog.rs` on the non-internal database `app` is classified as a user
operation by both revisions of `IsLikelyUserOperation`, although the
claim requires `false` for every internal-collection target. -/
theorem classifier_likely_user_counterexample :
    ExtractCommandName insertOplogMsg = strBytes "insert" ∧
      likelyUserOps.contains (strBytes "insert") = true ∧
      IsInternalCollection (ExtractCollection insertOplogMsg) = true ∧
      IsInternalDatabase (ExtractDatabase insertOplogMsg) = false ∧
      IsLikelyUserOperation insertOplogMsg = true ∧
      IsLikelyUserOperationSimple insertOplogMsg = true := by
  refine ⟨by decide, by decide, by decide, by decide, by decide, by decide⟩

/-- C2 amended: for a packet whose extracted command name is in the
likely-user set, the context-aware `IsLikelyUserOperation` returns
`false` exactly when the extracted database is internal
(`local`, `admin`, `config`); an internal collection on a non-internal
database does not make the classifier answer `false`, because the
collection test is conjoined with the database test. -/
theorem classifier_likely_user_amended (msg : List Nat)
    (h : likelyUserOps.contains (ExtractCommandName msg) = true) :
    IsLikelyUserOperation msg =
      !IsInternalDatabase (ExtractDatabase msg) := by
  have hne : ¬(ExtractCommandName msg = []) := by
    intro he
    rw [he] at h
    exact absurd h (by decide)
  simp only [IsLikelyUserOperation, if_neg hne, isLikelyUserOperationFrom, h,
    if_pos]
  cases hdb : IsInternalDatabase (ExtractDatabase msg) <;>
    cases hcl : IsInternalCollection (ExtractCollection msg) <;> simp

/-- C2 amended witness: the concrete insert packet has a likely-user
command and its classification equals the negation of the
internal-database test. -/
theorem classifier_likely_user_amended_witness :
    likelyUserOps.contains (ExtractCommandName insertOplogMsg) = true ∧
      IsLikelyUserOperation insertOplogMsg =
        !IsInternalDatabase (ExtractDatabase insertOplogMsg) :=
  ⟨by decide, classifier_likely_user_amended insertOplogMsg (by decide)⟩

/-! ## C9: command-mode success check -/

/-- A driver-error-free result whose response document has no `ok` field. -/
def okAbsentResult : CommandResult :=
  { success := true, response := some [] }

/-- C9 counterexample: with driver success and a response document that
has no `ok` field, `IsOK` answers `true` ("assume success since the
command did not error"), although the claim requires `false` when the
field is absent. -/
theorem isok_counterexample :
    okAbsentResult.success = true ∧
      okAbsentResult.response = some [] ∧
      List.lookup "ok" ([] : List (String × BsonValue)) = none ∧
      IsOK okAbsentResult = true :=
  ⟨rfl, rfl, rfl, rfl⟩

/-- C9 amended: for a driver-error-free result with a decoded response
document, `IsOK` compares a numerically encoded `ok` field
(int, int32, int64, or double) against 1; an absent `ok` field yields
`true`, not `false`. -/
theorem isok_amended (r : CommandResult) (doc : List (String × BsonValue))
    (hs : r.success = true) (hr : r.response = some doc) :
    (doc.lookup "ok" = none → IsOK r = true) ∧
      (∀ n : Int, doc.lookup "ok" = some (.vint n) → (IsOK r = true ↔ n = 1)) ∧
      (∀ n : Int, doc.lookup "ok" = some (.vint32 n) → (IsOK r = true ↔ n = 1)) ∧
      (∀ n : Int, doc.lookup "ok" = some (.vint64 n) → (IsOK r = true ↔ n = 1)) ∧
      (∀ q : ℚ, doc.lookup "ok" = some (.vdouble q) → (IsOK r = true ↔ q = 1)) ∧
      (∀ v : BsonValue, doc.lookup "ok" = some v →
        (∀ n : Int, v ≠ .vint n) → (∀ n : Int, v ≠ .vint32 n) →
        (∀ n : Int, v ≠ .vint64 n) → (∀ q : ℚ, v ≠ .vdouble q) →
        IsOK r = true) := by
  refine ⟨fun h => ?_, fun n h => ?_, fun n h => ?_, fun n h => ?_,
    fun q h => ?_, fun v h h1 h2 h3 h4 => ?_⟩
  · simp [IsOK, hs, hr, h]
  · simp [IsOK, hs, hr, h]
  · simp [IsOK, hs, hr, h]
  · simp [IsOK, hs, hr, h]
  · simp [IsOK, hs, hr, h]
  · cases v with
    | vint n => exact absurd rfl (h1 n)
    | vint32 n => exact absurd rfl (h2 n)
    | vint64 n => exact absurd rfl (h3 n)
    | vdouble q => exact absurd rfl (h4 q)
    | doc d => simp [IsOK, hs, hr, h]
    | arr a => simp [IsOK, hs, hr, h]
    | str s => simp [IsOK, hs, hr, h]
    | vnull => simp [IsOK, hs, hr, h]
    | vbool b => simp [IsOK, hs, hr, h]
    | prim t => simp [IsOK, hs, hr, h]

/-- C9 amended witness: a response carrying `ok` as the double 1.0 is
recorded as success, and so is one carrying `ok` under a non-numeric
encoding (a string). -/
theorem isok_amended_witness :
    IsOK { success := true,
           response := some [("ok", BsonValue.vdouble 1)] } = true ∧
      IsOK { success := true,
             response := some [("ok", BsonValue.str "banana")] } = true :=
  ⟨((isok_amended { success := true, response := some [("ok", BsonValue.vdouble 1)] }
      [("ok", BsonValue.vdouble 1)] rfl rfl).2.2.2.2.1 1 rfl).mpr rfl,
    (isok_amended { success := true, response := some [("ok", BsonValue.str "banana")] }
      [("ok", BsonValue.str "banana")] rfl rfl).2.2.2.2.2 (BsonValue.str "banana")
      rfl (fun _ h => nomatch h) (fun _ h => nomatch h) (fun _ h => nomatch h)
      (fun _ h => nomatch h)⟩

/-! ## C5: legacy opcodes rejected by raw-mode validation -/

/-- A syntactically valid 16-byte wire message whose opcode is
OP_REPLY = 1 (header length 16, requestID 1, responseTo 42). -/
def opReplyMsg : List Nat := [16, 0, 0, 0, 1, 0, 0, 0, 42, 0, 0, 0, 1, 0, 0, 0]

/-- A syntactically valid 16-byte wire message whose opcode is
OP_QUERY = 2004. -/
def opQueryMsg : List Nat := [16, 0, 0, 0, 1, 0, 0, 0, 0, 0, 0, 0, 212, 7, 0, 0]

/-- C5 counterexample: a wire message with opcode OP_REPLY = 1 — one of
the claim's seven legacy opcodes — passes `validateWireMessage` without
an unsupported-legacy-opcode error: `isLegacyOpCode` tests only six
opcodes and OP_REPLY is not among them. -/
theorem legacy_opcode_counterexample :
    toInt32 (le32At opReplyMsg 12) = OpReply ∧
      isLegacyOpCode OpReply = false ∧
      validateWireMessage opReplyMsg =
        .ok { length := 16, requestID := 1, responseTo := 42, opCode := 1 } :=
  ⟨rfl, rfl, rfl⟩

/-- C5 amended: validation rejects as legacy exactly the six opcodes
OP_UPDATE = 2001, OP_INSERT = 2002, OP_QUERY = 2004, OP_GET_MORE = 2005,
OP_DELETE = 2006, OP_KILL_CURSORS = 2007; OP_REPLY = 1 is not rejected as
legacy.  For a message of at least 16 bytes, `validateWireMessage`
returns the unsupported-legacy-opcode error exactly when the header
opcode is in that six-element set. -/
theorem legacy_opcode_amended (msg : List Nat) (h : 16 ≤ msg.length) :
    (∀ op : Int, isLegacyOpCode op = true ↔
        op ∈ [OpQuery, OpInsert, OpUpdate, OpDelete, OpGetMore, OpKillCursors]) ∧
      OpReply ∉ [OpQuery, OpInsert, OpUpdate, OpDelete, OpGetMore, OpKillCursors] ∧
      (validateWireMessage msg =
          .error (.legacyOpCode (toInt32 (le32At msg 12))) ↔
        isLegacyOpCode (toInt32 (le32At msg 12)) = true) := by
  refine ⟨fun op => ?_, by decide, ?_⟩
  · simp only [isLegacyOpCode, Bool.or_eq_true, decide_eq_true_eq,
      List.mem_cons, List.not_mem_nil, or_false]
    tauto
  · have hlen : ¬(msg.length < 16) := by omega
    simp only [validateWireMessage, ReadHeader, if_neg hlen]
    cases hleg : isLegacyOpCode (toInt32 (le32At msg 12))
    · rw [if_neg (by simp [hleg])]
      simp only [hleg, Bool.false_eq_true, iff_false]
      split <;> simp
    · simp [hleg]

/-- C5 amended witness: the concrete OP_QUERY message is rejected with
the legacy-opcode error. -/
theorem legacy_opcode_amended_witness :
    validateWireMessage opQueryMsg =
      .error (.legacyOpCode (toInt32 (le32At opQueryMsg 12))) :=
  ((legacy_opcode_amended opQueryMsg (by decide)).2.2).mpr (by decide)

/-! ## C10: script generation for `find` -/

/-- The command document carries `key` as a non-empty embedded document
(the `doc[key].(bson.M); ok && len > 0` test of the source). -/
def hasNonemptyDocAt (doc : List (String × BsonValue)) (key : String) : Bool :=
  match doc.lookup key with
  | some (.doc d) => 0 < d.length
  | _ => false

/-- A placeholder for the JSON rendering of a value (its concrete output
is irrelevant to which chain methods `generateFind` emits). -/
def renderStub : BsonValue → String := fun _ => "\x7b\x7d"

/-- A placeholder for the `%v` formatting of the limit value. -/
def renderVStub : BsonValue → String := fun _ => "5"

/-- A recorded `find` command document carrying a projection, a sort and
a limit simultaneously. -/
def findAllOptionsDoc : List (String × BsonValue) :=
  [("find", .str "users"), ("filter", .doc []),
    ("projection", .doc [("a", .vint32 1)]),
    ("sort", .doc [("b", .vint32 1)]),
    ("limit", .vint64 5)]

/-- C10 counterexample: on a `find` document that has projection, sort
and limit all present, `generateFind` emits only the `.project(...)`
chain and drops `.sort(...)` and `.limit(...)`: the projection branch
returns early.  The emitted statement contains neither `.sort(` nor
`.limit(`. -/
theorem generate_find_counterexample :
    findAllOptionsDoc.lookup "sort" = some (.doc [("b", .vint32 1)]) ∧
      findAllOptionsDoc.lookup "limit" = some (.vint64 5) ∧
      generateFind renderStub renderVStub findAllOptionsDoc "app" =
        .ok "db.getSiblingDB(\"app\").users.find(\n  \x7b\x7d\n).project(\x7b\x7d);" ∧
      indexOfSub
        (strBytes "db.getSiblingDB(\"app\").users.find(\n  \x7b\x7d\n).project(\x7b\x7d);")
        (strBytes ".sort(") = none ∧
      indexOfSub
        (strBytes "db.getSiblingDB(\"app\").users.find(\n  \x7b\x7d\n).project(\x7b\x7d);")
        (strBytes ".limit(") = none :=
  ⟨rfl, rfl, rfl, by decide, by decide⟩

/-- C10 amended: `generateFind` emits `find(filter)` chained with at most
one option — the first present in the priority order projection, sort,
limit; options after the first present one do not appear in the emitted
statement. -/
theorem generate_find_amended :
    (∀ (render renderV : BsonValue → String) doc database coll projd,
        doc.lookup "find" = some (.str coll) →
        doc.lookup "projection" = some (.doc projd) → 0 < projd.length →
        generateFind render renderV doc database =
          .ok ("db.getSiblingDB(\"" ++ database ++ "\")." ++ coll ++
            ".find(\n  " ++ render (findFilterOf doc) ++ "\n).project(" ++
            render (.doc projd) ++ ");")) ∧
      (∀ (render renderV : BsonValue → String) doc database coll sortd,
        doc.lookup "find" = some (.str coll) →
        hasNonemptyDocAt doc "projection" = false →
        doc.lookup "sort" = some (.doc sortd) → 0 < sortd.length →
        generateFind render renderV doc database =
          .ok ("db.getSiblingDB(\"" ++ database ++ "\")." ++ coll ++
            ".find(\n  " ++ render (findFilterOf doc) ++ "\n).sort(" ++
            render (.doc sortd) ++ ");")) ∧
      (∀ (render renderV : BsonValue → String) doc database coll v,
        doc.lookup "find" = some (.str coll) →
        hasNonemptyDocAt doc "projection" = false →
        hasNonemptyDocAt doc "sort" = false →
        doc.lookup "limit" = some v →
        generateFind render renderV doc database =
          .ok ("db.getSiblingDB(\"" ++ database ++ "\")." ++ coll ++
            ".find(\n  " ++ render (findFilterOf doc) ++ "\n).limit(" ++
            renderV v ++ ");")) := by
  refine ⟨?_, ?_, ?_⟩
  · intro render renderV doc database coll projd hfind hproj hlen
    simp only [generateFind, hfind, hproj, findFilterOf]
    rw [if_pos hlen]
  · intro render renderV doc database coll sortd hfind hpn hsort hlen
    simp only [generateFind, hfind, hsort, findFilterOf]
    cases hp : doc.lookup "projection" with
    | none => simp only [hp, if_pos hlen]
    | some v =>
      cases v with
      | doc d =>
        have hd : ¬(0 < d.length) := fun hc => by
          simp only [hasNonemptyDocAt, hp] at hpn
          simp [hc] at hpn
        simp only [hp, if_neg hd, if_pos hlen]
      | _ => simp only [hp, if_pos hlen]
  · intro render renderV doc database coll v hfind hpn hsn hlimit
    simp only [generateFind, hfind, hlimit, findFilterOf]
    have hsort : ∀ r : Except String String,
        (match doc.lookup "sort" with
          | some (.doc d) =>
            if 0 < d.length then
              Except.ok ("db.getSiblingDB(\"" ++ database ++ "\")." ++ coll ++
                ".find(\n  " ++ render (findFilterOf doc) ++ "\n).sort(" ++
                render (.doc d) ++ ");")
            else r
          | _ => r) = r := by
      intro r
      cases hs : doc.lookup "sort" with
      | none => rfl
      | some w =>
        cases w with
        | doc d =>
          have hd : ¬(0 < d.length) := fun hc => by
            simp only [hasNonemptyDocAt, hs] at hsn
            simp [hc] at hsn
          simp only [if_neg hd]
        | _ => rfl
    cases hp : doc.lookup "projection" with
    | none => simp only [hp, findFilterOf] at hsort ⊢; rw [hsort]
    | some w =>
      cases w with
      | doc d =>
        have hd : ¬(0 < d.length) := fun hc => by
          simp only [hasNonemptyDocAt, hp] at hpn
          simp [hc] at hpn
        simp only [hp, if_neg hd, findFilterOf] at hsort ⊢
        rw [hsort]
      | _ => simp only [hp, findFilterOf] at hsort ⊢; rw [hsort]

/-- C10 amended witness: on the all-options document the projection form
is emitted. -/
theorem generate_find_amended_witness :
    generateFind renderStub renderVStub findAllOptionsDoc "app" =
      .ok ("db.getSiblingDB(\"" ++ "app" ++ "\")." ++ "users" ++
        ".find(\n  " ++ renderStub (findFilterOf findAllOptionsDoc) ++
        "\n).project(" ++ renderStub (.doc [("a", .vint32 1)]) ++ ");") :=
  generate_find_amended.1 renderStub renderVStub findAllOptionsDoc "app"
    "users" [("a", .vint32 1)] rfl rfl (by decide)

/-! ## C8: empty-message packets in the filter -/

/-- C8: for a packet with an empty message, (a) with requests-only on,
both user-ops flags off and no other filter configured, the packet is
kept; (b) with both user-ops flags off the packet is never dropped with
reason `response` or `empty-message`, whatever the other filters do; and
(c) with user-ops-only or user-ops-smart on, the packet is dropped. -/
theorem empty_message_filter :
    (∀ (p : Packet) (config : FilterConfig),
        p.message = [] → config.requestsOnly = true →
        config.userOpsOnly = false → config.userOpsOnlySmart = false →
        config.excludeInternal = false → config.includeCommands = [] →
        config.excludeCommands = [] → config.minOffset = 0 →
        config.maxOffset = 0 →
        shouldKeepPacket p config = (true, "")) ∧
      (∀ (p : Packet) (config : FilterConfig),
        p.message = [] → config.userOpsOnly = false →
        config.userOpsOnlySmart = false →
        (shouldKeepPacket p config).2 ≠ "response" ∧
          (shouldKeepPacket p config).2 ≠ "empty-message") ∧
      (∀ (p : Packet) (config : FilterConfig),
        p.message = [] →
        (config.userOpsOnly = true ∨ config.userOpsOnlySmart = true) →
        (shouldKeepPacket p config).1 = false) := by
  refine ⟨?_, ?_, ?_⟩
  · intro p config hm hro huo hus hei hic hec hmin hmax
    simp [shouldKeepPacket, hm, hro, huo, hus, hei, hic, hec, hmin, hmax]
  · intro p config hm huo hus
    constructor <;>
      · simp only [shouldKeepPacket, hm, huo, hus]
        norm_num
        repeat' split
        all_goals simp
  · intro p config hm h
    rcases h with h | h <;>
      · simp only [shouldKeepPacket, hm, h]
        norm_num
        repeat' split
        all_goals simp

/-- C8 witness: a concrete empty-message packet is kept by a
requests-only configuration, never dropped as `response` or
`empty-message` by a configuration with user-ops flags off, and dropped
by a user-ops-only configuration. -/
theorem empty_message_filter_witness :
    shouldKeepPacket
        { size := 29, sessionID := 0, sessionMetadata := [], offset := 0,
          order := 0, message := [] }
        { requestsOnly := true } = (true, "") ∧
      (shouldKeepPacket
          { size := 29, sessionID := 0, sessionMetadata := [], offset := 0,
            order := 0, message := [] }
          { requestsOnly := true }).2 ≠ "response" ∧
      (shouldKeepPacket
          { size := 29, sessionID := 0, sessionMetadata := [], offset := 0,
            order := 0, message := [] }
          { userOpsOnly := true }).1 = false :=
  ⟨empty_message_filter.1 _ _ rfl rfl rfl rfl rfl rfl rfl rfl rfl,
    (empty_message_filter.2.1 _ _ rfl rfl rfl).1,
    empty_message_filter.2.2 _ _ rfl (Or.inl rfl)⟩

/-! ## C3: replay scheduling form -/

/-- C3 counterexample: with speed 1, packets at offsets 0 and 1000000 μs
and a first send occupying 5 μs, the second packet's send time is
1000005 — the incremental sleep is added after the first send completes —
whereas the absolute-baseline form demands
`T_start + (offset − first_offset) / speed = 1000000`. -/
theorem replay_timing_counterexample :
    replaySendTimes 1 [((0 : ℚ), (5 : ℚ)), (1000000, 0)] = [0, 1000005] ∧
      (1000005 : ℚ) ≠ ((1000000 : ℚ) - 0) / 1 := by
  constructor
  · norm_num [replaySendTimes, replayTimesAux]
  · norm_num

/-- Send times produced by `replayTimesAux`, in closed form: starting
time plus the incremental delta from `last`, plus the accumulated send
durations of the earlier packets. -/
theorem replayTimesAux_getD (speed : ℚ) (hs : 0 < speed) :
    ∀ (l : List (ℚ × ℚ)) (t last : ℚ),
      l.Pairwise (fun a b => a.1 ≤ b.1) → (∀ x ∈ l, last ≤ x.1) →
      ∀ i, i < l.length →
        (replayTimesAux speed t last l).getD i 0 =
          t + ((l.getD i (0, 0)).1 - last) / speed +
            ((l.take i).map Prod.snd).sum := by
  intro l
  induction l with
  | nil => intro t last _ _ i hi; simp at hi
  | cons hd tl ih =>
    intro t last hpw hge i hi
    obtain ⟨o, w⟩ := hd
    have hlast : last ≤ o := hge (o, w) (by simp)
    have hd0 : 0 ≤ (o - last) / speed :=
      div_nonneg (by linarith) hs.le
    have hslept :
        (if (o - last) / speed > 0 then (o - last) / speed else 0) =
          (o - last) / speed := by
      split
      · rfl
      · linarith
    obtain ⟨hall, htl⟩ := List.pairwise_cons.1 hpw
    cases i with
    | zero => simp [replayTimesAux, hslept]
    | succ n =>
      simp only [replayTimesAux, hslept, List.getD_cons_succ,
        List.take_succ_cons, List.map_cons, List.sum_cons]
      rw [ih (t + (o - last) / speed + w) o htl hall n (by simpa using hi)]
      have : ((tl.getD n (0, 0)).1 - o) / speed + (o - last) / speed =
          ((tl.getD n (0, 0)).1 - last) / speed := by
        rw [div_add_div_same]
        ring_nf
      linarith [this]

/-- C3 amended: the scheduler uses the incremental form — the send time
of packet `i` is `T_start + (offset_i − first_offset) / speed` plus the
accumulated durations of the earlier sends, because each iteration
sleeps the full inter-packet delta after the previous send completed
rather than sleeping until an absolute target time.  (Offsets
non-decreasing as in a recording, `speed > 0`.) -/
theorem replay_timing_amended (speed : ℚ) (hs : 0 < speed)
    (packets : List (ℚ × ℚ))
    (hmono : packets.Pairwise (fun a b => a.1 ≤ b.1)) :
    ∀ i, i < packets.length →
      (replaySendTimes speed packets).getD i 0 =
        ((packets.getD i (0, 0)).1 - (packets.getD 0 (0, 0)).1) / speed +
          ((packets.take i).map Prod.snd).sum := by
  cases packets with
  | nil => intro i hi; simp at hi
  | cons hd tl =>
    obtain ⟨o, w⟩ := hd
    intro i hi
    cases i with
    | zero => simp [replaySendTimes]
    | succ n =>
      obtain ⟨hall, htl⟩ := List.pairwise_cons.1 hmono
      simp only [replaySendTimes, List.getD_cons_succ, List.getD_cons_zero,
        List.take_succ_cons, List.map_cons, List.sum_cons]
      rw [replayTimesAux_getD speed hs tl w o htl hall n (by simpa using hi)]
      ring

/-- C3 amended witness: at speed 1 with packets at offsets 0 and 10 and
a 5 μs first send, the second send time is the baseline 10 plus the
5 μs drift. -/
theorem replay_timing_amended_witness :
    (replaySendTimes 1 [((0 : ℚ), (5 : ℚ)), (10, 0)]).getD 1 0 =
      ((10 : ℚ) - 0) / 1 + 5 := by
  have h := replay_timing_amended 1 (by norm_num)
    [((0 : ℚ), (5 : ℚ)), (10, 0)] (by norm_num [List.pairwise_cons]) 1
    (by norm_num)
  simpa using h

/-! ## C6: internal-field stripping -/

/-- Stripping is idempotent at the value level (with the document- and
array-level statements carried through the mutual induction). -/
theorem cleanValue_idem : ∀ v : BsonValue,
    cleanValue (cleanValue v) = cleanValue v := by
  refine cleanValue.induct
    (fun d => cleanInternalFields (cleanInternalFields d) = cleanInternalFields d)
    (fun v => cleanValue (cleanValue v) = cleanValue v)
    (fun a => cleanInternalFieldsArray (cleanInternalFieldsArray a) =
      cleanInternalFieldsArray a)
    ?_ ?_ ?_ ?_ ?_ ?_ ?_ ?_ ?_ ?_ ?_ ?_ ?_ ?_ ?_
  · intro m hm; simp [cleanValue, hm]
  · intro a ha; simp [cleanValue, ha]
  · intro s; rfl
  · rfl
  · intro n; rfl
  · intro n; rfl
  · intro n; rfl
  · intro q; rfl
  · intro b; rfl
  · intro t; rfl
  · rfl
  · intro key value rest hk ih
    have hk2 : key ∈ internalFields := by simpa using hk
    simp [cleanInternalFields, hk2, ih]
  · intro key value rest hk ihv ihr
    have hk2 : key ∉ internalFields := by simpa using hk
    simp [cleanInternalFields, hk2, ihv, ihr]
  · rfl
  · intro item rest ihi ihr; simp [cleanInternalFieldsArray, ihi, ihr]

/-- No stripped key survives at any depth of a cleaned value. -/
theorem cleanValue_mentions : ∀ v : BsonValue,
    mentionsInternalKey (cleanValue v) = false := by
  refine cleanValue.induct
    (fun d => mentionsInternalKeyFields (cleanInternalFields d) = false)
    (fun v => mentionsInternalKey (cleanValue v) = false)
    (fun a => mentionsInternalKeyArray (cleanInternalFieldsArray a) = false)
    ?_ ?_ ?_ ?_ ?_ ?_ ?_ ?_ ?_ ?_ ?_ ?_ ?_ ?_ ?_
  · intro m hm; simpa [cleanValue, mentionsInternalKey] using hm
  · intro a ha; simpa [cleanValue, mentionsInternalKey] using ha
  · intro s; rfl
  · rfl
  · intro n; rfl
  · intro n; rfl
  · intro n; rfl
  · intro q; rfl
  · intro b; rfl
  · intro t; rfl
  · rfl
  · intro key value rest hk ih
    have hk2 : key ∈ internalFields := by simpa using hk
    simp [cleanInternalFields, hk2, ih]
  · intro key value rest hk ihv ihr
    have hk2 : key ∉ internalFields := by simpa using hk
    simp [cleanInternalFields, mentionsInternalKeyFields, hk2, ihv, ihr]
  · rfl
  · intro item rest ihi ihr
    simp [cleanInternalFieldsArray, mentionsInternalKeyArray, ihi, ihr]

/-- C6: the strip transform is idempotent at value and document level; no
key of the stripped set survives at any depth; a cleaned document is
exactly its non-internal entries, keys unchanged and values recursively
cleaned (so operator keys like `$set`, `$inc`, `$match`, `$lookup`
survive); and every non-document, non-array value is copied as-is. -/
theorem internal_field_strip (v : BsonValue) (d : List (String × BsonValue)) :
    cleanValue (cleanValue v) = cleanValue v ∧
      cleanInternalFields (cleanInternalFields d) = cleanInternalFields d ∧
      mentionsInternalKey (cleanValue v) = false ∧
      mentionsInternalKeyFields (cleanInternalFields d) = false ∧
      cleanInternalFields d =
        (d.filter fun kv => !(internalFields.contains kv.1)).map
          (fun kv => (kv.1, cleanValue kv.2)) ∧
      ((∀ fs, v ≠ .doc fs) → (∀ es, v ≠ .arr es) → cleanValue v = v) := by
  refine ⟨cleanValue_idem v, ?_, cleanValue_mentions v, ?_, ?_, ?_⟩
  · have h := cleanValue_idem (.doc d)
    simpa [cleanValue] using h
  · have h := cleanValue_mentions (.doc d)
    simpa [cleanValue, mentionsInternalKey] using h
  · induction d with
    | nil => rfl
    | cons kv rest ih =>
      obtain ⟨k, w⟩ := kv
      by_cases hk : k ∈ internalFields
      · simp [cleanInternalFields, List.filter_cons, hk, ih]
      · simp [cleanInternalFields, List.filter_cons, hk, ih]
  · intro h1 h2
    cases v with
    | doc fs => exact absurd rfl (h1 fs)
    | arr es => exact absurd rfl (h2 es)
    | str s => rfl
    | vnull => rfl
    | vint n => rfl
    | vint32 n => rfl
    | vint64 n => rfl
    | vdouble q => rfl
    | vbool b => rfl
    | prim t => rfl

/-- C6 witness: the spec's scenario-4 document — an `update` carrying
`$clusterTime` and `lsid` alongside an `updates` entry whose `u` uses the
operator keys `$set` and `$inc` — keeps the operators and loses exactly
the internal keys, and cleaning a plain string value is the identity. -/
theorem internal_field_strip_witness :
    cleanValue (BsonValue.str "x") = BsonValue.str "x" ∧
      cleanInternalFields
          [("update", BsonValue.str "u"),
            ("$clusterTime", BsonValue.doc [("t", BsonValue.vint64 1)]),
            ("lsid", BsonValue.doc [("id", BsonValue.str "s")]),
            ("updates", BsonValue.arr [BsonValue.doc
              [("q", BsonValue.doc []),
                ("u", BsonValue.doc
                  [("$set", BsonValue.doc [("x", BsonValue.vint32 1)]),
                    ("$inc", BsonValue.doc [("y", BsonValue.vint32 1)])])]])] =
        [("update", BsonValue.str "u"),
          ("updates", BsonValue.arr [BsonValue.doc
            [("q", BsonValue.doc []),
              ("u", BsonValue.doc
                [("$set", BsonValue.doc [("x", BsonValue.vint32 1)]),
                  ("$inc", BsonValue.doc [("y", BsonValue.vint32 1)])])]])] := by
  constructor
  · exact (internal_field_strip (.str "x") []).2.2.2.2.2
      (by intro fs h; cases h) (by intro es h; cases h)
  · have h := (internal_field_strip (.str "x")
      [("update", BsonValue.str "u"),
        ("$clusterTime", BsonValue.doc [("t", BsonValue.vint64 1)]),
        ("lsid", BsonValue.doc [("id", BsonValue.str "s")]),
        ("updates", BsonValue.arr [BsonValue.doc
          [("q", BsonValue.doc []),
            ("u", BsonValue.doc
              [("$set", BsonValue.doc [("x", BsonValue.vint32 1)]),
                ("$inc", BsonValue.doc [("y", BsonValue.vint32 1)])])]])]).2.2.2.2.1
    rw [h]
    simp [internalFields, cleanValue, cleanInternalFields,
      cleanInternalFieldsArray]

/-! ## Decoder inversion lemmas -/

/-- A successful 32-bit read decomposes the input into the value's
canonical little-endian encoding and the rest, and bounds the value. -/
theorem readLE32_eq_some (l : List Nat) (n : Nat) (r : List Nat)
    (h : readLE32 l = some (n, r)) (hb : ∀ b ∈ l, b < 256) :
    le32enc n ++ r = l ∧ n < 4294967296 := by
  rcases l with _ | ⟨b0, _ | ⟨b1, _ | ⟨b2, _ | ⟨b3, rest⟩⟩⟩⟩ <;>
    simp [readLE32] at h
  obtain ⟨hn, hr⟩ := h
  subst hn
  subst hr
  have h0 : b0 < 256 := hb b0 (by simp)
  have h1 : b1 < 256 := hb b1 (by simp)
  have h2 : b2 < 256 := hb b2 (by simp)
  have h3 : b3 < 256 := hb b3 (by simp)
  constructor
  · simp only [le32enc, List.cons_append, List.nil_append, List.cons.injEq]
    refine ⟨?_, ?_, ?_, ?_, trivial⟩ <;> omega
  · omega

/-- A successful 64-bit read decomposes the input into the value's
canonical little-endian encoding and the rest, and bounds the value. -/
theorem readLE64_eq_some (l : List Nat) (n : Nat) (r : List Nat)
    (h : readLE64 l = some (n, r)) (hb : ∀ b ∈ l, b < 256) :
    le64enc n ++ r = l ∧ n < 18446744073709551616 := by
  rcases l with _ | ⟨b0, _ | ⟨b1, _ | ⟨b2, _ | ⟨b3, _ | ⟨b4, _ |
    ⟨b5, _ | ⟨b6, _ | ⟨b7, rest⟩⟩⟩⟩⟩⟩⟩⟩ <;>
    simp [readLE64] at h
  obtain ⟨hn, hr⟩ := h
  subst hn
  subst hr
  have h0 : b0 < 256 := hb b0 (by simp)
  have h1 : b1 < 256 := hb b1 (by simp)
  have h2 : b2 < 256 := hb b2 (by simp)
  have h3 : b3 < 256 := hb b3 (by simp)
  have h4 : b4 < 256 := hb b4 (by simp)
  have h5 : b5 < 256 := hb b5 (by simp)
  have h6 : b6 < 256 := hb b6 (by simp)
  have h7 : b7 < 256 := hb b7 (by simp)
  constructor
  · simp only [le64enc, List.cons_append, List.nil_append, List.cons.injEq]
    refine ⟨?_, ?_, ?_, ?_, ?_, ?_, ?_, ?_, trivial⟩ <;> omega
  · omega

/-- A successful metadata scan decomposes the input into the metadata,
its null terminator, and the rest. -/
theorem readCStringAux_eq_ok (l : List Nat) : ∀ (acc : Nat) (m r : List Nat),
    readCStringAux acc l = .ok (m, r) → m ++ 0 :: r = l := by
  induction l with
  | nil =>
    intro acc m r h
    exact absurd h (by simp [readCStringAux])
  | cons b rest ih =>
    intro acc m r h
    by_cases hb : b = 0
    · rw [readCStringAux, if_pos hb] at h
      obtain ⟨hm, hr⟩ : ([] : List Nat) = m ∧ rest = r := by simpa using h
      subst hm
      subst hr
      simp [hb]
    · rw [readCStringAux, if_neg hb] at h
      by_cases hacc : acc + 1 > 10000
      · rw [if_pos hacc] at h
        exact absurd h (by simp)
      · rw [if_neg hacc] at h
        cases hrec : readCStringAux (acc + 1) rest with
        | error e => rw [hrec] at h; exact absurd h (by simp)
        | ok v =>
          obtain ⟨m1, r1⟩ := v
          rw [hrec] at h
          obtain ⟨hm, hr⟩ : b :: m1 = m ∧ r1 = r := by simpa using h
          subst hm
          subst hr
          simpa using ih (acc + 1) m1 r1 hrec

/-- A successful exact read splits the input and has the requested
length. -/
theorem readExact_eq_ok (n : Nat) (l m r : List Nat)
    (h : readExact n l = .ok (m, r)) : m ++ r = l ∧ m.length = n := by
  rw [readExact] at h
  by_cases hlen : l.length < n
  · rw [if_pos hlen] at h
    exact absurd h (by simp)
  · rw [if_neg hlen] at h
    obtain ⟨hm, hr⟩ : l.take n = m ∧ l.drop n = r := by simpa using h
    subst hm
    subst hr
    exact ⟨List.take_append_drop n l, by simp; omega⟩

/-- Decode–encode inversion for a single frame: a successfully parsed
packet, re-encoded by the Filter's `writePacket`, reproduces exactly the
bytes the parse consumed. -/
theorem ReadPacket_eq_ok (input : List Nat) (p : Packet) (rest : List Nat)
    (hb : ∀ b ∈ input, b < 256) (h : ReadPacket input = .ok (p, rest)) :
    writePacket p ++ rest = input := by
  unfold ReadPacket at h
  cases h1 : readLE32 input with
  | none => rw [h1] at h; exact absurd h (by simp)
  | some v1 =>
  obtain ⟨size, r1⟩ := v1
  simp only [h1] at h
  by_cases hsz : size < 29
  · rw [if_pos hsz] at h; exact absurd h (by simp)
  rw [if_neg hsz] at h
  obtain ⟨henc1, hlt1⟩ := readLE32_eq_some input size r1 h1 hb
  have hb1 : ∀ b ∈ r1, b < 256 := fun b hm =>
    hb b (henc1 ▸ List.mem_append_right _ hm)
  cases h2 : readLE64 r1 with
  | none => simp only [h2] at h; exact absurd h (by simp)
  | some v2 =>
  obtain ⟨sid, r2⟩ := v2
  simp only [h2] at h
  obtain ⟨henc2, hlt2⟩ := readLE64_eq_some r1 sid r2 h2 hb1
  have hb2 : ∀ b ∈ r2, b < 256 := fun b hm =>
    hb1 b (henc2 ▸ List.mem_append_right _ hm)
  cases h3 : readCStringAux 0 r2 with
  | error e => simp only [h3] at h; exact absurd h (by simp)
  | ok v3 =>
  obtain ⟨meta, r3⟩ := v3
  simp only [h3] at h
  have henc3 : meta ++ 0 :: r3 = r2 := readCStringAux_eq_ok r2 0 meta r3 h3
  have hb3 : ∀ b ∈ r3, b < 256 := fun b hm =>
    hb2 b (henc3 ▸ (by simp [hm] : b ∈ meta ++ 0 :: r3))
  cases h4 : readLE64 r3 with
  | none => simp only [h4] at h; exact absurd h (by simp)
  | some v4 =>
  obtain ⟨off, r4⟩ := v4
  simp only [h4] at h
  obtain ⟨henc4, hlt4⟩ := readLE64_eq_some r3 off r4 h4 hb3
  have hb4 : ∀ b ∈ r4, b < 256 := fun b hm =>
    hb3 b (henc4 ▸ List.mem_append_right _ hm)
  cases h5 : readLE64 r4 with
  | none => simp only [h5] at h; exact absurd h (by simp)
  | some v5 =>
  obtain ⟨ord, r5⟩ := v5
  simp only [h5] at h
  obtain ⟨henc5, hlt5⟩ := readLE64_eq_some r4 ord r5 h5 hb4
  by_cases hneg :
      (size : Int) - ((4 + 8 + meta.length + 1 + 8 + 8 : Nat) : Int) < 0
  · rw [if_pos hneg] at h; exact absurd h (by simp)
  rw [if_neg hneg] at h
  cases h6 : readExact
      ((size : Int) -
        ((4 + 8 + meta.length + 1 + 8 + 8 : Nat) : Int)).toNat r5 with
  | error e => simp only [h6] at h; exact absurd h (by simp)
  | ok v6 =>
  obtain ⟨msg, r6⟩ := v6
  simp only [h6] at h
  obtain ⟨hp, hrest⟩ :
      ({ size := size, sessionID := sid, sessionMetadata := meta,
         offset := off, order := ord, message := msg } : Packet) = p ∧
        r6 = rest := by simpa using h
  subst hp
  subst hrest
  obtain ⟨hmr, hml⟩ := readExact_eq_ok _ r5 msg r6 h6
  have hheader : ¬((size : Int) < ((4 + 8 + meta.length + 1 + 8 + 8 : Nat) : Int)) := by
    omega
  have hmsglen : msg.length = size - (4 + 8 + meta.length + 1 + 8 + 8) := by
    omega
  simp only [writePacket]
  have hS : 4 + 8 + meta.length + 1 + 8 + 8 + msg.length = size := by omega
  rw [hS, ← henc1, ← henc2, ← henc3, ← henc4, ← henc5, ← hmr]
  simp

/-- The accept-all configuration keeps every packet. -/
theorem shouldKeepPacket_acceptAll (p : Packet) :
    (shouldKeepPacket p acceptAllConfig).1 = true := by
  simp [shouldKeepPacket, acceptAllConfig]

/-- Every encoded frame occupies at least 29 bytes. -/
theorem writePacket_length (p : Packet) : 29 ≤ (writePacket p).length := by
  simp [writePacket, le32enc, le64enc]
  omega

/-- Fuel-indexed form of the C1 identity: with enough fuel, an accept-all
filter pass over a stream that decodes without error reproduces the
stream. -/
theorem filterStreamFuel_acceptAll : ∀ (fuel : Nat) (input : List Nat),
    input.length ≤ fuel → (∀ b ∈ input, b < 256) →
    ∀ out, filterStreamFuel acceptAllConfig fuel input = some out →
    out = input := by
  intro fuel
  induction fuel with
  | zero =>
    intro input hle hb out h
    cases input with
    | nil =>
      simp only [filterStreamFuel, Option.some.injEq] at h
      exact h.symm
    | cons b rest0 => simp at hle
  | succ n ih =>
    intro input hle hb out h
    cases input with
    | nil =>
      simp only [filterStreamFuel, Option.some.injEq] at h
      exact h.symm
    | cons b rest0 =>
      simp only [filterStreamFuel] at h
      cases hR : ReadPacket (b :: rest0) with
      | error e => simp only [hR] at h; exact absurd h (by simp)
      | ok v =>
        obtain ⟨p, rest⟩ := v
        simp only [hR] at h
        have hdec := ReadPacket_eq_ok (b :: rest0) p rest hb hR
        have hwl := writePacket_length p
        have hlen : rest.length ≤ n := by
          have hlw : (writePacket p ++ rest).length = (b :: rest0).length := by
            rw [hdec]
          simp only [List.length_append, List.length_cons] at hlw
          simp only [List.length_cons] at hle
          omega
        have hbr : ∀ x ∈ rest, x < 256 := fun x hx =>
          hb x (hdec ▸ List.mem_append_right _ hx)
        cases hF : filterStreamFuel acceptAllConfig n rest with
        | none => simp only [hF] at h; exact absurd h (by simp)
        | some out0 =>
          simp only [hF] at h
          have hout0 := ih rest hlen hbr out0 hF
          rw [shouldKeepPacket_acceptAll p] at h
          obtain hout : writePacket p ++ out0 = out := by simpa using h
          rw [← hout, hout0, hdec]

/-- C1: decode–encode identity.  Whenever an accept-all filter pass over
a recording byte stream decodes every frame successfully (which is
exactly the claim's well-formedness: each frame's `size ≥ 29`, its
metadata null-terminated within the safety cap, and its computed message
length non-negative), the re-encoded output bytes equal the input
bytes — `size` being recomputed as
`4 + 8 + (len(session_metadata)+1) + 8 + 8 + len(message)`. -/
theorem decode_encode_identity (input : List Nat)
    (hb : ∀ b ∈ input, b < 256) (out : List Nat)
    (h : filterStream acceptAllConfig input = some out) : out = input :=
  filterStreamFuel_acceptAll input.length input le_rfl hb out h

/-- C1 witness: the spec's scenario-3 frame (metadata `abc`, 32-byte
message, recomputed size 64) round-trips bit-identically through the
accept-all filter. -/
theorem decode_encode_identity_witness :
    filterStream acceptAllConfig (writePacket scenarioPacket) =
      some (writePacket scenarioPacket) := by
  rcases hev : filterStream acceptAllConfig (writePacket scenarioPacket) with
    _ | out
  · exact absurd hev (by decide)
  · rw [decode_encode_identity (writePacket scenarioPacket) (by decide) out hev]

/-! ## C4: the session-metadata safety cap -/

/-- The metadata scan fails with `metadataOverflow` as soon as the
accumulated byte count passes 10000, whatever follows. -/
theorem readCStringAux_overflow : ∀ (m : List Nat) (acc : Nat) (rest : List Nat),
    (∀ b ∈ m, b ≠ 0) → 10000 < acc + m.length → acc ≤ 10000 →
    readCStringAux acc (m ++ rest) = .error .metadataOverflow := by
  intro m
  induction m with
  | nil => intro acc rest _ h1 h2; simp at h1; omega
  | cons b mtl ih =>
    intro acc rest hz h1 h2
    have hbne : ¬(b = 0) := hz b (by simp)
    simp only [List.cons_append, List.append_eq, readCStringAux, if_neg hbne]
    by_cases hacc : acc + 1 > 10000
    · rw [if_pos hacc]
    · rw [if_neg hacc]
      rw [ih (acc + 1) rest (fun x hx => hz x (by simp [hx]))
        (by simp at h1; omega) (by omega)]

/-- The metadata scan succeeds on a null-terminated run of at most 10000
non-null bytes. -/
theorem readCStringAux_complete : ∀ (m : List Nat) (acc : Nat) (rest : List Nat),
    (∀ b ∈ m, b ≠ 0) → acc + m.length ≤ 10000 →
    readCStringAux acc (m ++ 0 :: rest) = .ok (m, rest) := by
  intro m
  induction m with
  | nil => intro acc rest _ _; simp [readCStringAux]
  | cons b mtl ih =>
    intro acc rest hz hle
    have hbne : ¬(b = 0) := hz b (by simp)
    have hacc : ¬(acc + 1 > 10000) := by simp at hle; omega
    simp only [List.cons_append, List.append_eq, readCStringAux, if_neg hbne,
      if_neg hacc]
    rw [ih (acc + 1) rest (fun x hx => hz x (by simp [hx]))
      (by simp at hle; omega)]

/-- Reading back a 32-bit little-endian encoding yields the value modulo
`2 ^ 32` and the rest. -/
theorem readLE32_le32enc (n : Nat) (r : List Nat) :
    readLE32 (le32enc n ++ r) = some (n % 4294967296, r) := by
  simp only [le32enc, List.cons_append, List.nil_append, readLE32,
    Option.some.injEq, Prod.mk.injEq]
  exact ⟨by omega, trivial⟩

/-- Reading back a 64-bit little-endian encoding yields the value modulo
`2 ^ 64` and the rest. -/
theorem readLE64_le64enc (n : Nat) (r : List Nat) :
    readLE64 (le64enc n ++ r) = some (n % 18446744073709551616, r) := by
  simp only [le64enc, List.cons_append, List.nil_append, readLE64,
    Option.some.injEq, Prod.mk.injEq]
  exact ⟨by omega, trivial⟩

/-- Frame analysis behind C4: a frame encoded from null-free metadata
and in-range fields decodes back to the packet exactly when the metadata
is within the 10000-byte cap, and is rejected with the metadata-overflow
parse error otherwise. -/
theorem ReadPacket_writePacket_cap (p : Packet)
    (hz : ∀ b ∈ p.sessionMetadata, b ≠ 0)
    (hsize : p.size = 29 + p.sessionMetadata.length + p.message.length)
    (h32 : p.size < 4294967296)
    (hsid : p.sessionID < 18446744073709551616)
    (hoff : p.offset < 18446744073709551616)
    (hord : p.order < 18446744073709551616) :
    ReadPacket (writePacket p) =
      if p.sessionMetadata.length ≤ 10000 then .ok (p, [])
      else .error .metadataOverflow := by
  have hS : 4 + 8 + p.sessionMetadata.length + 1 + 8 + 8 + p.message.length =
      p.size := by omega
  simp only [writePacket, List.append_assoc, List.cons_append,
    List.nil_append, List.singleton_append, hS]
  simp only [ReadPacket, readLE32_le32enc, Nat.mod_eq_of_lt h32]
  rw [if_neg (show ¬p.size < 29 by omega)]
  simp only [readLE64_le64enc, Nat.mod_eq_of_lt hsid]
  by_cases hcap : p.sessionMetadata.length ≤ 10000
  · rw [if_pos hcap]
    rw [readCStringAux_complete p.sessionMetadata 0
      (le64enc p.offset ++ (le64enc p.order ++ p.message)) hz (by omega)]
    simp only [readLE64_le64enc, Nat.mod_eq_of_lt hoff, Nat.mod_eq_of_lt hord]
    rw [if_neg (by push_cast; omega)]
    simp only [readExact]
    rw [if_neg (by push_cast; omega)]
    rw [List.take_of_length_le (by push_cast; omega),
      List.drop_eq_nil_of_le (by push_cast; omega)]
  · rw [if_neg hcap]
    rw [readCStringAux_overflow p.sessionMetadata 0
      (0 :: (le64enc p.offset ++ (le64enc p.order ++ p.message))) hz
      (by omega) (by omega)]

/-- A well-formed packet whose session metadata is 10001 bytes long
(`size` = 29 + 10001, empty message). -/
def overflowPacket : Packet :=
  { size := 10030, sessionID := 0,
    sessionMetadata := List.replicate 10001 97, offset := 0, order := 0,
    message := [] }

/-- C4 counterexample: the decoder's cap is 10000 bytes, not the claimed
10 KiB = 10240: a well-formed frame whose metadata is 10001 bytes long —
shorter than 10240 — is rejected with the metadata-overflow parse
error. -/
theorem metadata_cap_counterexample :
    overflowPacket.sessionMetadata.length = 10001 ∧ 10001 < 10240 ∧
      ReadPacket (writePacket overflowPacket) = .error .metadataOverflow := by
  have hlen : overflowPacket.sessionMetadata.length = 10001 := by
    rw [show overflowPacket.sessionMetadata = List.replicate 10001 97 from rfl,
      List.length_replicate]
  refine ⟨hlen, by omega, ?_⟩
  have hz : ∀ b ∈ overflowPacket.sessionMetadata, b ≠ 0 := by
    intro b hbm
    have := List.eq_of_mem_replicate hbm
    omega
  have h := ReadPacket_writePacket_cap overflowPacket hz
    (by rw [hlen]; rfl)
    (by show (10030 : Nat) < 4294967296; norm_num)
    (by show (0 : Nat) < 18446744073709551616; norm_num)
    (by show (0 : Nat) < 18446744073709551616; norm_num)
    (by show (0 : Nat) < 18446744073709551616; norm_num)
  rw [hlen, if_neg (by omega)] at h
  exact h

/-- C4 amended: the decoder's session-metadata safety cap is exactly
10000 bytes.  A well-formed frame (null-free metadata, consistent size,
fields in range) decodes successfully when its metadata is at most 10000
bytes long, and is rejected with the metadata-overflow parse error as
soon as the metadata exceeds 10000 bytes. -/
theorem metadata_cap_amended (p : Packet)
    (hz : ∀ b ∈ p.sessionMetadata, b ≠ 0)
    (hsize : p.size = 29 + p.sessionMetadata.length + p.message.length)
    (h32 : p.size < 4294967296)
    (hsid : p.sessionID < 18446744073709551616)
    (hoff : p.offset < 18446744073709551616)
    (hord : p.order < 18446744073709551616) :
    ReadPacket (writePacket p) =
      if p.sessionMetadata.length ≤ 10000 then .ok (p, [])
      else .error .metadataOverflow :=
  ReadPacket_writePacket_cap p hz hsize h32 hsid hoff hord

/-- C4 amended witness: the scenario-3 frame (3-byte metadata, below the
cap) decodes back to itself. -/
theorem metadata_cap_amended_witness :
    ReadPacket (writePacket scenarioPacket) = .ok (scenarioPacket, []) := by
  have h := metadata_cap_amended scenarioPacket (by decide) (by decide)
    (by decide) (by decide) (by decide) (by decide)
  simpa using h

end TrafficReplay
